import Mathlib

/-!
Verification of the move-gaussian fixed-point Gaussian evaluator.

The definitions below are a shallow embedding of the Python sources
`scripts/src/utils.py`, `scripts/src/04_horner_python.py`,
`scripts/src/10_cross_language_vectors.py` and
`verification/overflow_analysis.py`.  Python arbitrary-precision
non-negative integers become `Nat`; parallel `magnitudes`/`signs`
arrays become a single `List (Nat × Bool)` of (magnitude, is_negative)
pairs (the repository's own tests zip the two arrays the same way);
a Python `raise` becomes `none` in an `Option` result.
-/

/-- Scale factor WAD = 10^18 (`utils.py`, `04_horner_python.py`). -/
def WAD : Nat := 10 ^ 18

/-- `EPS_WAD = int(1e-10 * WAD)` = 10^8 (`utils.py`). -/
def EPS_WAD : Nat := 10 ^ 8

/-- `signed_add(a_mag, a_neg, b_mag, b_neg)` from `utils.py` /
`04_horner_python.py`: same sign adds magnitudes and keeps the sign;
different signs subtract the smaller magnitude from the larger and keep
the sign of the (weakly) larger first-checked operand. -/
def signed_add (a_mag : Nat) (a_neg : Bool) (b_mag : Nat) (b_neg : Bool) :
    Nat × Bool :=
  if a_neg == b_neg then (a_mag + b_mag, a_neg)
  else if a_mag ≥ b_mag then (a_mag - b_mag, a_neg)
  else (b_mag - a_mag, b_neg)

/-- One step of the Horner loop body of `horner_eval_signed`:
`result_mag = result_mag * x // WAD` (the sign is unchanged because
`x ≥ 0`) followed by `result = signed_add(result, c)`. -/
def hornerStep (x : Nat) (acc c : Nat × Bool) : Nat × Bool :=
  signed_add (acc.1 * x / WAD) acc.2 c.1 c.2

/-- `horner_eval_signed(x, magnitudes, signs)` from `04_horner_python.py`:
start from the highest-degree coefficient (`magnitudes[-1]`, `signs[-1]`)
and loop `i` from `len - 2` down to `0`, i.e. fold the loop body over the
list without its last element, taken in reverse.  (The Python code would
raise on an empty list; the `getLastD` default is never used by any
theorem below, all of which assume a non-empty coefficient list.) -/
def horner_eval_signed (x : Nat) (coeffs : List (Nat × Bool)) : Nat × Bool :=
  coeffs.dropLast.reverse.foldl (hornerStep x) (coeffs.getLastD (0, false))

/-- The Horner recurrence as the specification states it: the accumulator
starts as the highest-degree coefficient and, for each index from the
second-highest down to 0, becomes `signed_add` of the fixed-point product
of the accumulator with `x` and the coefficient at that index. -/
def hornerRec (x : Nat) : List (Nat × Bool) → Nat × Bool
  | [] => (0, false)
  | [c] => c
  | c :: c' :: rest => hornerStep x (hornerRec x (c' :: rest)) c

/-- `rational_eval_signed(x, p_mags, p_signs, q_mags, q_signs)` from
`04_horner_python.py`: evaluate numerator and denominator by Horner,
raise (`none`) when the denominator magnitude is zero, otherwise return
`((p_mag * WAD) // q_mag, p_neg != q_neg)`. -/
def rational_eval_signed (x : Nat) (num den : List (Nat × Bool)) :
    Option (Nat × Bool) :=
  let p := horner_eval_signed x num
  let q := horner_eval_signed x den
  if q.1 = 0 then none
  else some (p.1 * WAD / q.1, p.2 != q.2)

/-- Numerator/denominator coefficient pair of one rational
approximation, as loaded from `scaled_coefficients.json`
(`p_magnitudes`/`p_signs` and `q_magnitudes`/`q_signs`). -/
structure RationalCoeffs where
  p : List (Nat × Bool)
  q : List (Nat × Bool)

/-- The state of a loaded `FixedPointErf` evaluator
(`04_horner_python.py`): the erf coefficient table, the integer domain
bound `max_x = int(self.domain[1] * WAD)`, and the optional dedicated
`erfc` and `phi` tables (`data.get(...)` may be absent). -/
structure FixedPointErf where
  erf_coeffs : RationalCoeffs
  max_x : Nat
  erfc_data : Option RationalCoeffs
  phi_data : Option RationalCoeffs

/-- Fixed-point `sqrt(2)` constant used by the `phi` fallback. -/
def SQRT2_WAD : Nat := 1414213562373095048

/-- `FixedPointErf.erf(x_wad)` from `04_horner_python.py`: saturate to
`WAD` above the domain bound, otherwise evaluate the rational
approximation, map a negative result to 0 and clamp to `WAD`. -/
def FixedPointErf.erf (self : FixedPointErf) (x_wad : Nat) : Option Nat :=
  if x_wad > self.max_x then some WAD
  else
    match rational_eval_signed x_wad self.erf_coeffs.p self.erf_coeffs.q with
    | none => none
    | some r => if r.2 then some 0 else some (min r.1 WAD)

/-- `FixedPointErf.erfc(x_wad)` from `04_horner_python.py`: with no
dedicated table, fall back to `WAD - erf(x_wad)` (the subtraction cannot
underflow because `erf` is clamped to `WAD`); with a dedicated table,
evaluate its rational approximation at `x_wad` directly. -/
def FixedPointErf.erfc (self : FixedPointErf) (x_wad : Nat) : Option Nat :=
  match self.erfc_data with
  | none => (self.erf x_wad).map (fun e => WAD - e)
  | some d =>
    match rational_eval_signed x_wad d.p d.q with
    | none => none
    | some r => if r.2 then some 0 else some (min r.1 WAD)

/-- `FixedPointErf.phi(x_wad)` from `04_horner_python.py`: with no
dedicated table, fall back to `0.5 * (1 + erf(x / sqrt 2))`; with a
dedicated table, evaluate its rational approximation at `x_wad`. -/
def FixedPointErf.phi (self : FixedPointErf) (x_wad : Nat) : Option Nat :=
  match self.phi_data with
  | none =>
    (self.erf (x_wad * WAD / SQRT2_WAD)).map (fun e => (WAD + e) / 2)
  | some d =>
    match rational_eval_signed x_wad d.p d.q with
    | none => none
    | some r => if r.2 then some 0 else some (min r.1 WAD)

/-- `uniform_open_interval(u)` from `utils.py`: mask the seed to 64 bits,
multiply by `span = WAD - 2 * EPS_WAD`, shift right by 64 and add
`EPS_WAD`. -/
def uniform_open_interval (u : Nat) : Nat :=
  let span := WAD - 2 * EPS_WAD
  let u_masked := u &&& (2 ^ 64 - 1)
  (u_masked * span) >>> 64 + EPS_WAD

/-- `apply_mean_std(z, mean_wad, std_wad)` from `utils.py`:
`delta = std_wad * z_mag // WAD`, then `mean + delta * sign(z)` as
signed fixed-point arithmetic. -/
def apply_mean_std (z : Nat × Bool) (mean_wad std_wad : Nat) : Nat × Bool :=
  let delta := std_wad * z.1 / WAD
  signed_add mean_wad false delta z.2

/-- `EPS = 1e-10` used by the reference `ppf` in
`10_cross_language_vectors.py`, as an exact rational. -/
def EPS_Q : ℚ := 1 / 10 ^ 10

/-- The clamping preamble of `ppf(p)` in `10_cross_language_vectors.py`:
`p = min(max(p, EPS), 1.0 - EPS)`, performed before the quantile is
evaluated; the function has no error path. -/
def ppf_clamp (p : ℚ) : ℚ := min (max p EPS_Q) (1 - EPS_Q)

/-- CDF numerator coefficient magnitudes
(`verification/overflow_analysis.py`, `CDF_NUM`). -/
def CDF_NUM : List Nat :=
  [500000000000000000, 202783200542711800, 3858755025623129,
   11990724892373883, 9821445877008875, 428553144348960, 75031762951910,
   152292945143770, 11488864967923, 4621581948805, 2225303281381,
   261982963157, 34576100063]

/-- CDF denominator coefficient magnitudes
(`verification/overflow_analysis.py`, `CDF_DEN`). -/
def CDF_DEN : List Nat :=
  [1000000000000000000, 392318159714714800, 305307092394795530,
   86637603680925630, 36598917127631020, 7691680921657243,
   2291266221525212, 371453915370755, 92212330692182, 13011690648577,
   2788395097838, 284107149822, 34964019972]

/-- A concrete evaluator state holding the CDF table of
`overflow_analysis.py` as the dedicated `phi` table (all coefficients
non-negative). -/
def cdfTable : FixedPointErf where
  erf_coeffs := ⟨[(WAD, false)], [(WAD, false)]⟩
  max_x := 6 * WAD
  erfc_data := none
  phi_data := some ⟨CDF_NUM.map (fun m => (m, false)),
                    CDF_DEN.map (fun m => (m, false))⟩

/-- A concrete evaluator state with a dedicated constant-1 `erfc` table,
used to exhibit the missing saturation check in `erfc`. -/
def erfcConstTable : FixedPointErf where
  erf_coeffs := ⟨[(WAD, false)], [(WAD, false)]⟩
  max_x := 6 * WAD
  erfc_data := some ⟨[(WAD, false)], [(WAD, false)]⟩
  phi_data := none

theorem horner_eval_eq_hornerRec (x : Nat) (coeffs : List (Nat × Bool)) :
    horner_eval_signed x coeffs = hornerRec x coeffs := by
  induction coeffs with
  | nil => rfl
  | cons c rest ih =>
    cases rest with
    | nil => rfl
    | cons c' rest' =>
      have hd : (c :: c' :: rest').dropLast = c :: (c' :: rest').dropLast := rfl
      have hl : (c :: c' :: rest').getLastD (0, false)
          = (c' :: rest').getLastD (0, false) := by
        simp [List.getLastD_cons]
      unfold horner_eval_signed at ih ⊢
      rw [hd, hl, List.reverse_cons, List.foldl_append]
      simp only [List.foldl_cons, List.foldl_nil]
      rw [ih]
      rfl

theorem signed_add_zero_left (s : Bool) (m : Nat) (n : Bool) (hm : 0 < m) :
    signed_add 0 s m n = (m, n) := by
  cases s <;> cases n <;> simp [signed_add, Nat.not_le.mpr hm]

theorem hornerRec_at_zero (c : Nat × Bool) (rest : List (Nat × Bool))
    (hc : 0 < c.1) : hornerRec 0 (c :: rest) = c := by
  cases rest with
  | nil => rfl
  | cons c' rest' =>
    show hornerStep 0 (hornerRec 0 (c' :: rest')) c = c
    unfold hornerStep
    rw [Nat.mul_zero, Nat.zero_div, signed_add_zero_left _ _ _ hc]

theorem uniform_open_interval_closed_form (u : Nat) (hu : u < 2 ^ 64) :
    uniform_open_interval u = u * (WAD - 2 * EPS_WAD) / 2 ^ 64 + EPS_WAD := by
  simp only [uniform_open_interval]
  rw [Nat.and_pow_two_sub_one_eq_mod, Nat.mod_eq_of_lt hu,
    Nat.shiftRight_eq_div_pow]

/-- C1: `signed_add` cancels equal opposite magnitudes to canonical zero
in either argument order.  FALSE as stated: when the negative operand
comes first, `signed_add(1, true, 1, false)` takes the `a_mag ≥ b_mag`
branch and keeps the first operand's sign, returning magnitude 0 with
sign `true`, a non-canonical zero. -/
theorem signed_add_cancel_counterexample :
    signed_add 1 true 1 false = (0, true) ∧
    signed_add 1 true 1 false ≠ (0, false) := by
  constructor <;> decide

/-- C1 (amended): for every positive magnitude `m`, adding `(m, positive)`
to `(m, negative)` returns canonical zero `(0, false)` only when the
positive operand is the first argument; with the negative operand first,
the result is magnitude 0 with sign `true` (a non-canonical zero). -/
theorem signed_add_cancel_order (m : Nat) (_hm : 0 < m) :
    signed_add m false m true = (0, false) ∧
    signed_add m true m false = (0, true) := by
  constructor <;> simp [signed_add]

theorem signed_add_cancel_order_witness :
    signed_add 1 false 1 true = (0, false) ∧
    signed_add 1 true 1 false = (0, true) :=
  signed_add_cancel_order 1 (by decide)

/-- C2: for every non-negative scaled `x` and non-empty coefficient
tables, `rational_eval_signed x num den` raises (returns `none`) exactly
when the Horner evaluation of the denominator at `x` has magnitude 0,
and returns no value in that case. -/
theorem rational_eval_trap_iff (x : Nat) (num den : List (Nat × Bool))
    (_hn : num ≠ []) (_hd : den ≠ []) :
    rational_eval_signed x num den = none ↔ (hornerRec x den).1 = 0 := by
  simp only [rational_eval_signed, horner_eval_eq_hornerRec]
  by_cases h : (hornerRec x den).1 = 0 <;> simp [h]

theorem rational_eval_trap_iff_witness :
    rational_eval_signed 0 [(1, false)] [(0, false)] = none ↔
      (hornerRec 0 [((0 : Nat), false)]).1 = 0 :=
  rational_eval_trap_iff 0 [(1, false)] [(0, false)] (by decide) (by decide)

/-- C3: the rational evaluator returns
`((p_mag * WAD) / q_mag, p_neg XOR q_neg)` with the sign forced to
`false` when `p_mag = 0`.  FALSE as stated: the sign is the XOR
unconditionally.  At `x = 0` with numerator constant `(0, false)` and
denominator constant `(WAD, true)`, the numerator magnitude is 0 yet the
returned sign is `true`, not `false`. -/
theorem rational_eval_zero_sign_counterexample :
    (hornerRec 0 [((0 : Nat), false)]).1 = 0 ∧
    rational_eval_signed 0 [(0, false)] [(WAD, true)] = some (0, true) ∧
    rational_eval_signed 0 [(0, false)] [(WAD, true)] ≠ some (0, false) := by
  refine ⟨rfl, rfl, by decide⟩

/-- C3 (amended): whenever the denominator's Horner magnitude is nonzero,
the rational evaluator returns magnitude
`floor(p_mag * WAD / q_mag)` and sign `p_neg XOR q_neg`
unconditionally — also when `p_mag = 0`, in which case the result can be
a zero magnitude carrying sign `true`. -/
theorem rational_eval_formula (x : Nat) (num den : List (Nat × Bool))
    (_hn : num ≠ []) (_hd : den ≠ []) (hq : (hornerRec x den).1 ≠ 0) :
    rational_eval_signed x num den =
      some ((hornerRec x num).1 * WAD / (hornerRec x den).1,
            (hornerRec x num).2 != (hornerRec x den).2) := by
  simp only [rational_eval_signed, horner_eval_eq_hornerRec]
  simp [hq]

theorem rational_eval_formula_witness :
    rational_eval_signed 0 [(1, false)] [(2, false)] =
      some ((hornerRec 0 [((1 : Nat), false)]).1 * WAD /
              (hornerRec 0 [((2 : Nat), false)]).1,
            (hornerRec 0 [((1 : Nat), false)]).2 !=
              (hornerRec 0 [((2 : Nat), false)]).2) :=
  rational_eval_formula 0 [(1, false)] [(2, false)] (by decide) (by decide)
    (by decide)

/-- C4: for every non-empty coefficient list and every scaled input
`x ≥ 0`, the Horner evaluator (`horner_eval_signed`, the loop from the
source) returns exactly the value of the recurrence `hornerRec`: the
accumulator starts as the highest-degree coefficient and, from the
second-highest index down to 0, becomes `signed_add` of the fixed-point
product `(floor(acc_mag * x / WAD), acc_sign)` and the coefficient. -/
theorem horner_eval_matches_recurrence (x : Nat)
    (coeffs : List (Nat × Bool)) (_hne : coeffs ≠ []) :
    horner_eval_signed x coeffs = hornerRec x coeffs :=
  horner_eval_eq_hornerRec x coeffs

theorem horner_eval_matches_recurrence_witness :
    horner_eval_signed 2 [(3, false), (4, true)] =
      hornerRec 2 [(3, false), (4, true)] :=
  horner_eval_matches_recurrence 2 [(3, false), (4, true)] (by decide)

theorem rational_eval_of_den_ne_zero (x : Nat) (num den : List (Nat × Bool))
    (hq : (hornerRec x den).1 ≠ 0) :
    rational_eval_signed x num den =
      some ((hornerRec x num).1 * WAD / (hornerRec x den).1,
            (hornerRec x num).2 != (hornerRec x den).2) := by
  simp only [rational_eval_signed, horner_eval_eq_hornerRec]
  simp [hq]

/-- C5: above the fitted domain bound the forward router saturates
without evaluating the rational approximation, with `erf` returning
`WAD` and `erfc` returning 0.  FALSE as stated for `erfc` with a
dedicated coefficient table: `erfc` has no saturation check and
evaluates its rational approximation at the out-of-domain input.  With
the constant-1 dedicated table and `x = 7 * WAD > 6 * WAD = max_x`,
`erfc` returns `WAD`, not 0. -/
theorem erfc_saturation_counterexample :
    erfcConstTable.max_x = 6 * WAD ∧ 6 * WAD < 7 * WAD ∧
    erfcConstTable.erfc (7 * WAD) = some WAD ∧
    erfcConstTable.erfc (7 * WAD) ≠ some 0 := by
  refine ⟨rfl, by norm_num [WAD], rfl, by decide⟩

/-- C5 (amended): above the fitted domain bound, `erf` returns exactly
`WAD` without evaluating the rational approximation (for every
coefficient table), and `erfc` returns exactly 0 when it has no
dedicated table (computed as `WAD - erf(x)`); with a dedicated table,
`erfc` evaluates that table at the out-of-domain input with no
saturation check. -/
theorem forward_saturation (t : FixedPointErf) (x : Nat)
    (hx : t.max_x < x) :
    t.erf x = some WAD ∧ (t.erfc_data = none → t.erfc x = some 0) := by
  have herf : t.erf x = some WAD := by
    unfold FixedPointErf.erf
    rw [if_pos hx]
  refine ⟨herf, fun hnone => ?_⟩
  simp only [FixedPointErf.erfc, hnone]
  rw [herf]
  simp

theorem forward_saturation_witness :
    cdfTable.erf (7 * WAD) = some WAD ∧
    (cdfTable.erfc_data = none → cdfTable.erfc (7 * WAD) = some 0) :=
  forward_saturation cdfTable (7 * WAD) (by norm_num [cdfTable, WAD])

/-- C6: for `x` in `[0, 6 * WAD]` and any table with that domain bound
whose denominator Horner magnitude does not vanish at `x`, `erf`
returns a value (does not trap) and that value lies in `[0, WAD]` (the
lower bound is inherent in `Nat`): a negative rational result is mapped
to 0 and the magnitude is clamped to at most `WAD`. -/
theorem erf_output_bounded (t : FixedPointErf) (x : Nat)
    (hx : x ≤ 6 * WAD) (hdom : t.max_x = 6 * WAD)
    (hq : (hornerRec x t.erf_coeffs.q).1 ≠ 0) :
    ∃ r, t.erf x = some r ∧ r ≤ WAD := by
  have hnot : ¬ t.max_x < x := by rw [hdom]; exact Nat.not_lt.mpr hx
  have herf : t.erf x =
      if ((hornerRec x t.erf_coeffs.p).2 != (hornerRec x t.erf_coeffs.q).2)
      then some 0
      else some (min ((hornerRec x t.erf_coeffs.p).1 * WAD /
                        (hornerRec x t.erf_coeffs.q).1) WAD) := by
    unfold FixedPointErf.erf
    rw [if_neg hnot, rational_eval_of_den_ne_zero x _ _ hq]
  by_cases hs :
      ((hornerRec x t.erf_coeffs.p).2 != (hornerRec x t.erf_coeffs.q).2)
  · exact ⟨0, by rw [herf, if_pos hs], Nat.zero_le _⟩
  · exact ⟨_, by rw [herf, if_neg hs], min_le_right _ _⟩

theorem erf_output_bounded_witness :
    ∃ r, erfcConstTable.erf 0 = some r ∧ r ≤ WAD :=
  erf_output_bounded erfcConstTable 0 (Nat.zero_le _) rfl (by decide)

/-- C7: the seed-to-probability map lands strictly inside
`(EPS_WAD, WAD - EPS_WAD)` for every 64-bit seed.  FALSE as stated: for
every seed `u ≤ 18` the product `u * span` stays below `2^64`, the
fraction is 0 and the result is exactly `EPS_WAD`, on the boundary, not
strictly inside (seed 19 is the first to clear it). -/
theorem uniform_seed_boundary_counterexample :
    uniform_open_interval 0 = EPS_WAD ∧
    uniform_open_interval 1 = EPS_WAD ∧
    uniform_open_interval 18 = EPS_WAD ∧
    uniform_open_interval 19 = EPS_WAD + 1 ∧
    ¬ EPS_WAD < uniform_open_interval 0 := by
  refine ⟨?_, ?_, ?_, ?_, ?_⟩ <;> decide

/-- C7 (amended): for every 64-bit seed,
`EPS_WAD ≤ uniform_open_interval u < WAD - EPS_WAD` — the lower bound
is non-strict (it is attained, e.g. by every seed `u ≤ 18`) and the
upper bound is strict — and the map is monotone non-decreasing in the
seed. -/
theorem uniform_open_interval_range_mono (u v : Nat)
    (hu : u < 2 ^ 64) (hv : v < 2 ^ 64) (huv : u ≤ v) :
    EPS_WAD ≤ uniform_open_interval u ∧
    uniform_open_interval u < WAD - EPS_WAD ∧
    uniform_open_interval u ≤ uniform_open_interval v := by
  rw [uniform_open_interval_closed_form u hu,
    uniform_open_interval_closed_form v hv]
  refine ⟨Nat.le_add_left _ _, ?_, ?_⟩
  · have hspan : 0 < WAD - 2 * EPS_WAD := by norm_num [WAD, EPS_WAD]
    have h1 : u * (WAD - 2 * EPS_WAD) / 2 ^ 64 < WAD - 2 * EPS_WAD := by
      rw [Nat.div_lt_iff_lt_mul (by positivity : (0:ℕ) < 2 ^ 64),
        Nat.mul_comm (WAD - 2 * EPS_WAD)]
      exact (Nat.mul_lt_mul_right hspan).mpr hu
    have hEPS : 2 * EPS_WAD ≤ WAD := by norm_num [WAD, EPS_WAD]
    omega
  · exact Nat.add_le_add_right
      (Nat.div_le_div_right (Nat.mul_le_mul_right _ huv)) _

theorem uniform_open_interval_range_mono_witness :
    EPS_WAD ≤ uniform_open_interval 2 ∧
    uniform_open_interval 2 < WAD - EPS_WAD ∧
    uniform_open_interval 2 ≤ uniform_open_interval 3 :=
  uniform_open_interval_range_mono 2 3 (by norm_num) (by norm_num)
    (by norm_num)

/-- C8: a probability of exactly 0 or exactly 1 given to the reference
`ppf` is surfaced as a domain error.  FALSE as stated: the source's
first step is `p = min(max(p, EPS), 1.0 - EPS)`, which silently maps 0
to `EPS` and 1 to `1 - EPS` and proceeds to evaluate; there is no error
path. -/
theorem ppf_clamp_coerces_counterexample :
    ppf_clamp 0 = EPS_Q ∧ ppf_clamp 1 = 1 - EPS_Q ∧ (0 : ℚ) < EPS_Q := by
  refine ⟨?_, ?_, by norm_num [EPS_Q]⟩
  · unfold ppf_clamp
    rw [max_eq_right (by norm_num [EPS_Q]), min_eq_left (by norm_num [EPS_Q])]
  · unfold ppf_clamp
    rw [max_eq_left (by norm_num [EPS_Q]), min_eq_right (by norm_num [EPS_Q])]

/-- C8 (amended): every probability argument, including exactly 0 and
exactly 1, is silently clamped into the closed interval
`[EPS, 1 - EPS]` before the quantile is evaluated; no domain error is
raised. -/
theorem ppf_clamp_in_closed_interval (p : ℚ) :
    EPS_Q ≤ ppf_clamp p ∧ ppf_clamp p ≤ 1 - EPS_Q :=
  ⟨le_min (le_trans (le_max_right p EPS_Q) (le_refl _))
      (by norm_num [EPS_Q]) |>.trans (le_refl _),
    min_le_right _ _⟩

/-- C9: with a dedicated CDF table whose constant terms are
`p0 = 500000000000000000` (positive) and `q0 = 1000000000000000000`
(positive), `phi(0)` is exactly `0.5 * WAD = 500000000000000000`: at
`x = 0` every Horner multiply step zeroes the accumulator magnitude, so
only the constant coefficients survive, and the final division is
exact. -/
theorem phi_at_zero (t : FixedPointErf) (d : RationalCoeffs)
    (hd : t.phi_data = some d)
    (hp : d.p.head? = some (500000000000000000, false))
    (hq : d.q.head? = some (1000000000000000000, false)) :
    t.phi 0 = some 500000000000000000 := by
  have hpl : d.p = (500000000000000000, false) :: d.p.tail := by
    cases hdp : d.p with
    | nil => simp [hdp] at hp
    | cons a tl => rw [hdp] at hp; simp at hp; simp [hdp, hp]
  have hql : d.q = (1000000000000000000, false) :: d.q.tail := by
    cases hdq : d.q with
    | nil => simp [hdq] at hq
    | cons a tl => rw [hdq] at hq; simp at hq; simp [hdq, hq]
  have hP : hornerRec 0 d.p = (500000000000000000, false) := by
    rw [hpl]; exact hornerRec_at_zero _ _ (by norm_num)
  have hQ : hornerRec 0 d.q = (1000000000000000000, false) := by
    rw [hql]; exact hornerRec_at_zero _ _ (by norm_num)
  have hrat : rational_eval_signed 0 d.p d.q =
      some (500000000000000000, false) := by
    rw [rational_eval_of_den_ne_zero 0 d.p d.q (by rw [hQ]; norm_num),
      hP, hQ]
    norm_num [WAD]
  simp only [FixedPointErf.phi, hd, hrat]
  rw [min_eq_left (by norm_num [WAD])]
  rfl

theorem phi_at_zero_witness : cdfTable.phi 0 = some 500000000000000000 :=
  phi_at_zero cdfTable
    ⟨CDF_NUM.map (fun m => (m, false)), CDF_DEN.map (fun m => (m, false))⟩
    rfl (by decide) (by decide)

/-- C10: the affine sampling transform with zero standard deviation is
the identity on the mean for every sampled variate: `delta` is
`0 * z_mag // WAD = 0`, and `signed_add(mean, false, 0, z_neg)` returns
`(mean, false)` for either sign of `z`, so `sampleNormal` with
`std = 0` yields the mean with canonical positive sign. -/
theorem apply_mean_std_zero_std (z : Nat × Bool) (mean_wad : Nat) :
    apply_mean_std z mean_wad 0 = (mean_wad, false) := by
  obtain ⟨zm, zs⟩ := z
  cases zs <;> simp [apply_mean_std, signed_add]
